import Mathlib

/-!
Verification development for the evolMerc trading-dashboard repository.

The repository has two near-duplicate variants of the same program
(src/EvolMerc.py, the cache-then-rerun Streamlit variant, and
src/unnamed/part_000, the background-loop Dash variant).  The logic
under study is:

  * calculate_slope : least-squares linear fit (np.polyfit deg 1) over
    a price list with integer indices 0..n-1 as x, returning the slope
    and the angle arctan(slope) * 180 / pi; lists of fewer than two
    elements yield (0.0, 0.0).
  * get_trend_info : classifies the angle into five labelled bands with
    fixed colors, by strict greater-than comparisons at 15, 5, -5, -15.
  * fetch_asset_data tail : current/previous price, absolute change and
    percentage change (guarded against a zero previous price in the
    current variant; unguarded in the old variant, where a zero
    previous price raises ZeroDivisionError).
  * chart normalization : (p - min)/(max - min) * 100, or constant 50
    when all prices are equal.
  * the per-symbol load loop : exceptions and empty results for one
    symbol become absence of that symbol only.

Prices are embedded as rationals (the Python code works in IEEE floats;
all claims under study are about exact arithmetic structure, except the
NaN claim, which uses an explicit float model with a non-signalling NaN).
The angle is a real number, arctan being transcendental.
-/

namespace EvolMerc

/-- The asset symbols configured in src/EvolMerc.py (keys of ASSETS). -/
def ASSETS_keys : List String :=
  ["GC=F", "SI=F", "CL=F", "^GSPC", "^NDX", "^DJI", "^GDAXI"]

/-! ## Least-squares slope (calculate_slope)

np.polyfit(x, y, 1) with x = 0..n-1 computes the ordinary-least-squares
line y = slope*x + intercept; for the degree-1 case the solution of the
normal equations is
  slope = (n*sum(x*y) - sum(x)*sum(y)) / (n*sum(x^2) - sum(x)^2).
We embed polyfit through this closed form and prove (claim C4) that it
really is the minimizer of the sum of squared residuals. -/

/-- Sum of the x values 0..n-1. -/
def sumX (n : ℕ) : ℚ := ∑ i ∈ Finset.range n, (i : ℚ)

/-- Sum of the squares of the x values 0..n-1. -/
def sumXX (n : ℕ) : ℚ := ∑ i ∈ Finset.range n, (i : ℚ) ^ 2

/-- Sum of the y values (the prices). -/
def sumY (ps : List ℚ) : ℚ := ∑ i ∈ Finset.range ps.length, ps.getD i 0

/-- Sum of x*y over the indexed price list. -/
def sumXY (ps : List ℚ) : ℚ :=
  ∑ i ∈ Finset.range ps.length, (i : ℚ) * ps.getD i 0

/-- Denominator of the normal-equations slope: n*sum(x^2) - sum(x)^2. -/
def slopeDen (n : ℕ) : ℚ := (n : ℚ) * sumXX n - sumX n ^ 2

/-- The slope np.polyfit(x, y, 1)[0] computes: the ordinary-least-squares
slope over points (i, ps[i]). -/
def polyfitSlope (ps : List ℚ) : ℚ :=
  ((ps.length : ℚ) * sumXY ps - sumX ps.length * sumY ps) / slopeDen ps.length

/-- The intercept np.polyfit(x, y, 1)[1] computes. -/
def polyfitIntercept (ps : List ℚ) : ℚ :=
  (sumY ps - polyfitSlope ps * sumX ps.length) / (ps.length : ℚ)

/-- Sum of squared residuals of the line y = a*x + b over the indexed
price list: the quantity a least-squares fit minimizes. -/
def SSR (ps : List ℚ) (a b : ℚ) : ℚ :=
  ∑ i ∈ Finset.range ps.length, (ps.getD i 0 - (a * (i : ℚ) + b)) ^ 2

/-- calculate_slope from src/EvolMerc.py lines 29-36: returns (0.0, 0.0)
for lists of fewer than two prices, otherwise the polyfit slope and the
angle arctan(slope) * (180 / pi). -/
noncomputable def calculate_slope (prices : List ℚ) : ℚ × ℝ :=
  if prices.length < 2 then (0, 0)
  else (polyfitSlope prices,
        Real.arctan (polyfitSlope prices) * (180 / Real.pi))

/-! ## Trend classification (get_trend_info)

The source compares a float angle with the literals 15, 5, -5, -15 by
strict greater-than.  The definition is polymorphic over a linear
ordered field so the same translation serves both the real angle
produced by calculate_slope and decidable rational instances. -/

/-- get_trend_info from src/EvolMerc.py lines 38-43. -/
def get_trend_info {α : Type} [LinearOrderedField α] (angle : α) :
    String × String :=
  if angle > 15 then ("FORTE ALTA", "#10B981")
  else if angle > 5 then ("ALTA MODERADA", "#34D399")
  else if angle > -5 then ("LATERAL", "#FBBF24")
  else if angle > -15 then ("BAIXA MODERADA", "#FB923C")
  else ("FORTE BAIXA", "#EF4444")

/-- Rank of the five labels in the order STRONG_DOWN < MODERATE_DOWN <
SIDEWAYS < MODERATE_UP < STRONG_UP (used to state monotonicity). -/
def labelRank (label : String) : ℕ :=
  if label = "FORTE BAIXA" then 0
  else if label = "BAIXA MODERADA" then 1
  else if label = "LATERAL" then 2
  else if label = "ALTA MODERADA" then 3
  else 4

/-! ## Float model for the NaN claim

Python float comparisons follow IEEE-754: every ordered comparison with
a NaN operand is false.  PyFloat models exactly the values relevant to
get_trend_info: NaN, or an ordinary (finite, exact) value. -/

/-- A Python float as seen by get_trend_info: NaN or an ordinary value. -/
inductive PyFloat : Type where
  | nan : PyFloat
  | val : ℚ → PyFloat

/-- IEEE strict greater-than against a literal: false whenever the left
operand is NaN. -/
def PyFloat.gtLit : PyFloat → ℚ → Bool
  | .nan, _ => false
  | .val q, c => decide (c < q)

/-- get_trend_info from src/EvolMerc.py lines 38-43, read over the float
model: each comparison angle > c is the IEEE comparison. -/
def get_trend_info_float (angle : PyFloat) : String × String :=
  if angle.gtLit 15 then ("FORTE ALTA", "#10B981")
  else if angle.gtLit 5 then ("ALTA MODERADA", "#34D399")
  else if angle.gtLit (-5) then ("LATERAL", "#FBBF24")
  else if angle.gtLit (-15) then ("BAIXA MODERADA", "#FB923C")
  else ("FORTE BAIXA", "#EF4444")

/-! ## Snapshot arithmetic (fetch_asset_data tail) -/

/-- current_price = prices[-1] (src/EvolMerc.py line 57; the list is
nonempty at this point in the source). -/
def current_price (prices : List ℚ) : ℚ := prices.getLastD 0

/-- previous_price = prices[0] (src/EvolMerc.py line 58). -/
def previous_price (prices : List ℚ) : ℚ := prices.headD 0

/-- change = current_price - previous_price (src/EvolMerc.py line 59). -/
def change (prices : List ℚ) : ℚ := current_price prices - previous_price prices

/-- change_pct = (change / previous_price) * 100 if previous_price else
0.0 (src/EvolMerc.py line 60): the Python truthiness test guards the
division when previous_price is zero. -/
def change_pct (prices : List ℚ) : ℚ :=
  if previous_price prices ≠ 0 then change prices / previous_price prices * 100
  else 0

/-- change_pct = (change / previous_price) * 100 from the old variant
(src/unnamed/part_000 line 88): there the division is unguarded, so a
zero previous_price raises ZeroDivisionError instead of producing a
value (the broad try/except of that fetch_asset_data then swallows the
exception and discards the whole snapshot). -/
def change_pct_old (prices : List ℚ) : Except String ℚ :=
  if previous_price prices = 0 then
    Except.error "ZeroDivisionError: float division by zero"
  else Except.ok (change prices / previous_price prices * 100)

/-! ## Chart normalization (update_dashboard, src/unnamed/part_000) -/

/-- Python min over a nonempty list (0 as an unused default for []). -/
def listMin : List ℚ → ℚ
  | [] => 0
  | h :: t => t.foldl min h

/-- Python max over a nonempty list (0 as an unused default for []). -/
def listMax : List ℚ → ℚ
  | [] => 0
  | h :: t => t.foldl max h

/-- The normalization comprehension of src/unnamed/part_000 line 235:
(p - min)/(max - min) * 100 if max != min else 50, for each price p. -/
def normalized (prices : List ℚ) : List ℚ :=
  prices.map (fun p =>
    if listMax prices ≠ listMin prices then
      (p - listMin prices) / (listMax prices - listMin prices) * 100
    else 50)

/-! ## Per-symbol load loop (src/EvolMerc.py lines 66-73)

fetch_asset_data may raise (modelled as Except.error), may report
absence (Except.ok none), or may return a snapshot (Except.ok (some d)).
The loop catches the exception, substitutes None, and stores the
snapshot only when one was produced. -/

/-- The data a successful fetch stores; abstract for the loop. -/
def load_data_store {D : Type} (fetch : String → Except String (Option D))
    (syms : List String) : String → Option D :=
  syms.foldl
    (fun store symbol =>
      match fetch symbol with
      | .ok (some d) => fun k => if k = symbol then some d else store k
      | .ok none => store
      | .error _ => store)
    (fun _ => none)

/-- What one loop iteration leaves for its symbol: the snapshot when the
fetch succeeded with data, absence when it raised or returned None. -/
def fetch_result {D : Type} (e : Except String (Option D)) : Option D :=
  match e with
  | .ok (some d) => some d
  | .ok none => none
  | .error _ => none

/-- A fetch oracle whose GC=F call raises and every other call succeeds
(used to exhibit failure isolation on a concrete run). -/
def fetch_fail_gold : String → Except String (Option ℚ) :=
  fun sym => if sym = "GC=F" then .error "network error" else .ok (some 1)

/-- A fetch oracle where every call succeeds with the same snapshot. -/
def fetch_all_ok : String → Except String (Option ℚ) :=
  fun _ => .ok (some 1)

/-! ## List min/max helper lemmas -/

lemma foldl_min_le_init (t : List ℚ) (h : ℚ) : t.foldl min h ≤ h := by
  induction t generalizing h with
  | nil => exact le_refl h
  | cons a ts ih =>
  exact le_trans (ih (min h a)) (min_le_left h a)

lemma foldl_min_le_mem (t : List ℚ) (h x : ℚ) (hx : x ∈ t) :
    t.foldl min h ≤ x := by
  induction t generalizing h with
  | nil => cases hx
  | cons a ts ih =>
  rcases List.mem_cons.mp hx with rfl | hx2
  · exact le_trans (foldl_min_le_init ts (min h x)) (min_le_right h x)
  · exact ih (min h a) hx2

lemma foldl_min_mem (t : List ℚ) (h : ℚ) : t.foldl min h ∈ h :: t := by
  induction t generalizing h with
  | nil => exact List.mem_cons_self h []
  | cons a ts ih =>
  simp only [List.foldl_cons]
  rcases List.mem_cons.mp (ih (min h a)) with heq | hmem
  · rw [heq]
    rcases min_choice h a with hc | hc
    · rw [hc]; exact List.mem_cons_self h (a :: ts)
    · rw [hc]; exact List.mem_cons_of_mem h (List.mem_cons_self a ts)
  · exact List.mem_cons_of_mem h (List.mem_cons_of_mem a hmem)

lemma init_le_foldl_max (t : List ℚ) (h : ℚ) : h ≤ t.foldl max h := by
  induction t generalizing h with
  | nil => exact le_refl h
  | cons a ts ih =>
  exact le_trans (le_max_left h a) (ih (max h a))

lemma mem_le_foldl_max (t : List ℚ) (h x : ℚ) (hx : x ∈ t) :
    x ≤ t.foldl max h := by
  induction t generalizing h with
  | nil => cases hx
  | cons a ts ih =>
  rcases List.mem_cons.mp hx with rfl | hx2
  · exact le_trans (le_max_right h x) (init_le_foldl_max ts (max h x))
  · exact ih (max h a) hx2

lemma foldl_max_mem (t : List ℚ) (h : ℚ) : t.foldl max h ∈ h :: t := by
  induction t generalizing h with
  | nil => exact List.mem_cons_self h []
  | cons a ts ih =>
  simp only [List.foldl_cons]
  rcases List.mem_cons.mp (ih (max h a)) with heq | hmem
  · rw [heq]
    rcases max_choice h a with hc | hc
    · rw [hc]; exact List.mem_cons_self h (a :: ts)
    · rw [hc]; exact List.mem_cons_of_mem h (List.mem_cons_self a ts)
  · exact List.mem_cons_of_mem h (List.mem_cons_of_mem a hmem)

lemma listMin_le (l : List ℚ) (x : ℚ) (hx : x ∈ l) : listMin l ≤ x := by
  cases l with
  | nil => cases hx
  | cons h t =>
  rcases List.mem_cons.mp hx with rfl | hx2
  · exact foldl_min_le_init t x
  · exact foldl_min_le_mem t h x hx2

lemma listMin_mem (l : List ℚ) (hl : l ≠ []) : listMin l ∈ l := by
  cases l with
  | nil => exact absurd rfl hl
  | cons h t => exact foldl_min_mem t h

lemma le_listMax (l : List ℚ) (x : ℚ) (hx : x ∈ l) : x ≤ listMax l := by
  cases l with
  | nil => cases hx
  | cons h t =>
  rcases List.mem_cons.mp hx with rfl | hx2
  · exact init_le_foldl_max t x
  · exact mem_le_foldl_max t h x hx2

lemma listMax_mem (l : List ℚ) (hl : l ≠ []) : listMax l ∈ l := by
  cases l with
  | nil => exact absurd rfl hl
  | cons h t => exact foldl_max_mem t h

/-- Lookup characterization of the load loop: for any starting store, a
symbol ends up mapped to its own fetch result when it occurs in the
symbol list and that result is a snapshot, and keeps its starting value
otherwise. -/
lemma load_store_lookup {D : Type} (fetch : String → Except String (Option D))
    (syms : List String) (init : String → Option D) (s : String) :
    syms.foldl
      (fun store symbol =>
        match fetch symbol with
        | .ok (some d) => fun k => if k = symbol then some d else store k
        | .ok none => store
        | .error _ => store)
      init s =
    if s ∈ syms ∧ (fetch_result (fetch s)).isSome
    then fetch_result (fetch s) else init s := by
  induction syms generalizing init with
  | nil => simp
  | cons t ts ih =>
    rw [List.foldl_cons, ih]
    by_cases hmem : s ∈ ts ∧ (fetch_result (fetch s)).isSome
    · rw [if_pos hmem, if_pos ⟨List.mem_cons_of_mem t hmem.1, hmem.2⟩]
    · rw [if_neg hmem]
      by_cases hst : s = t
      · subst hst
        rcases hft : fetch s with msg | od
        · simp only [hft]
          rw [if_neg]
          rintro ⟨-, hsome⟩
          simp [fetch_result] at hsome
        · rcases od with - | d
          · simp only [hft]
            rw [if_neg]
            rintro ⟨-, hsome⟩
            simp [fetch_result] at hsome
          · simp only [hft]
            simp [fetch_result]
      · rcases hft : fetch t with msg | od
        · simp only [hft]
          rw [if_neg]
          rintro ⟨hmem2, hsome⟩
          rcases List.mem_cons.mp hmem2 with rfl | hmem3
          · exact hst rfl
          · exact hmem ⟨hmem3, hsome⟩
        · rcases od with - | d
          · simp only [hft]
            rw [if_neg]
            rintro ⟨hmem2, hsome⟩
            rcases List.mem_cons.mp hmem2 with rfl | hmem3
            · exact hst rfl
            · exact hmem ⟨hmem3, hsome⟩
          · simp only [hft]
            rw [if_neg hst, if_neg]
            rintro ⟨hmem2, hsome⟩
            rcases List.mem_cons.mp hmem2 with rfl | hmem3
            · exact hst rfl
            · exact hmem ⟨hmem3, hsome⟩

/-! ## Ordinary-least-squares helper lemmas -/

lemma sumX_closed (n : ℕ) : sumX n = (n : ℚ) * ((n : ℚ) - 1) / 2 := by
  induction n with
  | zero => simp [sumX]
  | succ m ih =>
    rw [sumX, Finset.sum_range_succ]
    rw [sumX] at ih
    rw [ih]
    push_cast
    ring

lemma sumXX_closed (n : ℕ) :
    sumXX n = (n : ℚ) * ((n : ℚ) - 1) * (2 * (n : ℚ) - 1) / 6 := by
  induction n with
  | zero => simp [sumXX]
  | succ m ih =>
    rw [sumXX, Finset.sum_range_succ]
    rw [sumXX] at ih
    rw [ih]
    push_cast
    ring

lemma slopeDen_closed (n : ℕ) :
    slopeDen n = (n : ℚ) ^ 2 * ((n : ℚ) - 1) * ((n : ℚ) + 1) / 12 := by
  rw [slopeDen, sumX_closed, sumXX_closed]
  ring

lemma slopeDen_pos {n : ℕ} (h : 2 ≤ n) : 0 < slopeDen n := by
  rw [slopeDen_closed]
  have h2 : (2 : ℚ) ≤ (n : ℚ) := by exact_mod_cast h
  have hp : (0 : ℚ) < (n : ℚ) := by linarith
  have : (0 : ℚ) < (n : ℚ) ^ 2 * ((n : ℚ) - 1) * ((n : ℚ) + 1) :=
    mul_pos (mul_pos (pow_pos hp 2) (by linarith)) (by linarith)
  positivity

/-- First normal equation: the fitted residuals sum to zero. -/
lemma sum_resid_eq_zero (ps : List ℚ) (h : 2 ≤ ps.length) :
    ∑ i ∈ Finset.range ps.length,
      (ps.getD i 0 - (polyfitSlope ps * (i : ℚ) + polyfitIntercept ps)) = 0 := by
  have hn : ((ps.length : ℚ)) ≠ 0 := by
    have : (0 : ℚ) < (ps.length : ℚ) := by
      exact_mod_cast Nat.lt_of_lt_of_le (by norm_num) h
    exact this.ne'
  rw [Finset.sum_sub_distrib, Finset.sum_add_distrib, ← Finset.mul_sum,
    Finset.sum_const, Finset.card_range]
  have hy : ∑ i ∈ Finset.range ps.length, ps.getD i 0 = sumY ps := rfl
  have hx : ∑ i ∈ Finset.range ps.length, (i : ℚ) = sumX ps.length := rfl
  rw [hy, hx, nsmul_eq_mul]
  unfold polyfitIntercept
  field_simp

/-- Second normal equation: the residuals are orthogonal to x. -/
lemma sum_x_resid_eq_zero (ps : List ℚ) (h : 2 ≤ ps.length) :
    ∑ i ∈ Finset.range ps.length,
      (i : ℚ) * (ps.getD i 0 - (polyfitSlope ps * (i : ℚ) + polyfitIntercept ps))
      = 0 := by
  have hn : ((ps.length : ℚ)) ≠ 0 := by
    have : (0 : ℚ) < (ps.length : ℚ) := by
      exact_mod_cast Nat.lt_of_lt_of_le (by norm_num) h
    exact this.ne'
  have hden : (ps.length : ℚ) * sumXX ps.length - sumX ps.length ^ 2 ≠ 0 := by
    have hpos := slopeDen_pos h
    rw [slopeDen] at hpos
    exact hpos.ne'
  have hpoint : ∀ i ∈ Finset.range ps.length,
      (i : ℚ) * (ps.getD i 0 - (polyfitSlope ps * (i : ℚ) + polyfitIntercept ps))
        = (i : ℚ) * ps.getD i 0
          - (polyfitSlope ps * (i : ℚ) ^ 2 + polyfitIntercept ps * (i : ℚ)) := by
    intro i _
    ring
  rw [Finset.sum_congr rfl hpoint, Finset.sum_sub_distrib, Finset.sum_add_distrib,
    ← Finset.mul_sum, ← Finset.mul_sum]
  have hxy : ∑ i ∈ Finset.range ps.length, (i : ℚ) * ps.getD i 0 = sumXY ps := rfl
  have hxx : ∑ i ∈ Finset.range ps.length, (i : ℚ) ^ 2 = sumXX ps.length := rfl
  have hx : ∑ i ∈ Finset.range ps.length, (i : ℚ) = sumX ps.length := rfl
  rw [hxy, hxx, hx]
  unfold polyfitIntercept polyfitSlope slopeDen
  field_simp
  ring

/-- Squared-residual decomposition: any line's SSR is the fitted line's
SSR plus a sum of squares. -/
lemma ssr_decomp (ps : List ℚ) (h : 2 ≤ ps.length) (a b : ℚ) :
    SSR ps a b = SSR ps (polyfitSlope ps) (polyfitIntercept ps)
      + ∑ i ∈ Finset.range ps.length,
          ((polyfitSlope ps - a) * (i : ℚ) + (polyfitIntercept ps - b)) ^ 2 := by
  have hpoint : ∀ i ∈ Finset.range ps.length,
      (ps.getD i 0 - (a * (i : ℚ) + b)) ^ 2
        = (ps.getD i 0 - (polyfitSlope ps * (i : ℚ) + polyfitIntercept ps)) ^ 2
          + ((polyfitSlope ps - a) * (i : ℚ) + (polyfitIntercept ps - b)) ^ 2
          + (2 * (polyfitSlope ps - a))
            * ((i : ℚ)
              * (ps.getD i 0 - (polyfitSlope ps * (i : ℚ) + polyfitIntercept ps)))
          + (2 * (polyfitIntercept ps - b))
            * (ps.getD i 0 - (polyfitSlope ps * (i : ℚ) + polyfitIntercept ps)) := by
    intro i _
    ring
  rw [SSR, Finset.sum_congr rfl hpoint, Finset.sum_add_distrib,
    Finset.sum_add_distrib, Finset.sum_add_distrib, ← Finset.mul_sum,
    ← Finset.mul_sum, sum_x_resid_eq_zero ps h, sum_resid_eq_zero ps h,
    mul_zero, mul_zero, add_zero, add_zero]
  rfl

/-- The label rank of the classification as a function of the angle. -/
lemma labelRank_trend {α : Type} [LinearOrderedField α] (x : α) :
    labelRank (get_trend_info x).1 =
      if x > 15 then 4 else if x > 5 then 3 else if x > -5 then 2
      else if x > -15 then 1 else 0 := by
  unfold get_trend_info
  split_ifs <;> simp [labelRank]

/-! ## Theorems -/

/-- C1: for every real angle input, get_trend_info returns exactly one of
the five label/color pairs (the five pairs are pairwise distinct), the
comparisons being strict greater-than against 15, 5, -5, -15; each
boundary value falls into the lower band: 15 classifies as ALTA MODERADA
(MODERATE_UP), 5 as LATERAL (SIDEWAYS), -5 as BAIXA MODERADA
(MODERATE_DOWN) and -15 as FORTE BAIXA (STRONG_DOWN), each paired with
its specified color. -/
theorem trend_bands_strict :
    (∀ a : ℝ, get_trend_info a ∈
      [("FORTE ALTA", "#10B981"), ("ALTA MODERADA", "#34D399"),
       ("LATERAL", "#FBBF24"), ("BAIXA MODERADA", "#FB923C"),
       ("FORTE BAIXA", "#EF4444")])
    ∧ ([("FORTE ALTA", "#10B981"), ("ALTA MODERADA", "#34D399"),
        ("LATERAL", "#FBBF24"), ("BAIXA MODERADA", "#FB923C"),
        ("FORTE BAIXA", "#EF4444")] : List (String × String)).Nodup
    ∧ get_trend_info (15 : ℝ) = ("ALTA MODERADA", "#34D399")
    ∧ get_trend_info (5 : ℝ) = ("LATERAL", "#FBBF24")
    ∧ get_trend_info (-5 : ℝ) = ("BAIXA MODERADA", "#FB923C")
    ∧ get_trend_info (-15 : ℝ) = ("FORTE BAIXA", "#EF4444") := by
  refine ⟨fun a => ?_, by decide, ?_, ?_, ?_, ?_⟩
  · unfold get_trend_info
    split_ifs <;> simp
  all_goals norm_num [get_trend_info]

/-- C2: for every price list with fewer than two elements, calculate_slope
returns slope exactly 0 and angle exactly 0, and the resulting label is
LATERAL (SIDEWAYS).  This is the defined degenerate branch, not an
error. -/
theorem calculate_slope_degenerate (prices : List ℚ)
    (h : prices.length < 2) :
    calculate_slope prices = (0, 0)
    ∧ get_trend_info (calculate_slope prices).2 = ("LATERAL", "#FBBF24") := by
  have hcs : calculate_slope prices = (0, 0) := by
    unfold calculate_slope
    rw [if_pos h]
  refine ⟨hcs, ?_⟩
  rw [hcs]
  norm_num [get_trend_info]

/-- C2 witness: the empty price list. -/
theorem calculate_slope_degenerate_witness :
    calculate_slope [] = (0, 0)
    ∧ get_trend_info (calculate_slope []).2 = ("LATERAL", "#FBBF24") :=
  calculate_slope_degenerate [] (by decide)

/-- C3 counterexample: the claim as stated is false of one of its two
cited code places.  In the old variant (src/unnamed/part_000 line 88)
the division is unguarded, so on the concrete price list [0, 7], whose
previous price is 0, the computation raises ZeroDivisionError rather
than producing the claimed 0.0. -/
theorem change_pct_unguarded_raises :
    previous_price [0, 7] = 0
    ∧ change_pct_old [0, 7] ≠ Except.ok 0
    ∧ change_pct_old [0, 7]
        = Except.error "ZeroDivisionError: float division by zero" :=
  ⟨rfl, by simp [change_pct_old, previous_price], rfl⟩

/-- C3 amended: in the current variant's snapshot assembly
(src/EvolMerc.py line 60), change_pct equals
(current_price - previous_price) / previous_price * 100 and is defined
as exactly 0 when previous_price is zero, without raising; in the old
variant (src/unnamed/part_000 line 88) the division is unguarded, so a
zero previous_price raises ZeroDivisionError (which the enclosing
try/except converts to an absent snapshot) and change_pct is never 0
there, while a nonzero previous_price yields the same formula. -/
theorem change_pct_variants (prices : List ℚ) (_hne : prices ≠ []) :
    (change_pct prices =
      (current_price prices - previous_price prices) / previous_price prices
        * 100
     ∧ (previous_price prices = 0 → change_pct prices = 0))
    ∧ (previous_price prices = 0 →
        change_pct_old prices
          = Except.error "ZeroDivisionError: float division by zero")
    ∧ (previous_price prices ≠ 0 →
        change_pct_old prices
          = Except.ok ((current_price prices - previous_price prices)
              / previous_price prices * 100)) := by
  have hch : change prices = current_price prices - previous_price prices :=
    rfl
  refine ⟨⟨?_, ?_⟩, ?_, ?_⟩
  · unfold change_pct
    split_ifs with hp
    · rw [hch]
    · push_neg at hp
      rw [hp, div_zero, zero_mul]
  · intro hp
    unfold change_pct
    rw [if_neg (by simpa using hp)]
  · intro hp
    unfold change_pct_old
    rw [if_pos hp]
  · intro hp
    unfold change_pct_old
    rw [if_neg hp, hch]

/-- C3 witness: the zero-previous-price list [0, 7] exercises the
guarded zero result and the old variant's raise; [1900, 1920]
exercises the nonzero division path. -/
theorem change_pct_variants_witness :
    change_pct [0, 7] =
      (current_price [0, 7] - previous_price [0, 7]) / previous_price [0, 7]
        * 100
    ∧ change_pct [0, 7] = 0
    ∧ change_pct_old [0, 7]
        = Except.error "ZeroDivisionError: float division by zero"
    ∧ change_pct_old [1900, 1920]
        = Except.ok ((current_price [1900, 1920] - previous_price [1900, 1920])
            / previous_price [1900, 1920] * 100) :=
  ⟨(change_pct_variants [0, 7] (by decide)).1.1,
   (change_pct_variants [0, 7] (by decide)).1.2 rfl,
   (change_pct_variants [0, 7] (by decide)).2.1 rfl,
   (change_pct_variants [1900, 1920] (by decide)).2.2 (by norm_num [previous_price])⟩

/-- C5: for every nonempty price list, if the prices are non-constant
(max differs from min) the normalized values have minimum exactly 0 and
maximum exactly 100; if all prices are equal the guard takes the else
branch, every normalized value is 50, and no division by zero occurs. -/
theorem normalized_range (prices : List ℚ) (hne : prices ≠ []) :
    (listMax prices ≠ listMin prices →
      listMin (normalized prices) = 0 ∧ listMax (normalized prices) = 100)
    ∧ (listMax prices = listMin prices →
      ∀ y ∈ normalized prices, y = 50) := by
  constructor
  · intro hmm
    have hle : listMin prices ≤ listMax prices :=
      listMin_le prices (listMax prices) (listMax_mem prices hne)
    have hlt : listMin prices < listMax prices :=
      lt_of_le_of_ne hle (fun h => hmm h.symm)
    have hpos : 0 < listMax prices - listMin prices := by linarith
    have hmap : ∀ y ∈ normalized prices, ∃ p ∈ prices,
        (p - listMin prices) / (listMax prices - listMin prices) * 100 = y := by
      intro y hy
      rcases List.mem_map.mp hy with ⟨p, hp, hfy⟩
      rw [if_pos hmm] at hfy
      exact ⟨p, hp, hfy⟩
    have hnn : ∀ y ∈ normalized prices, 0 ≤ y := by
      intro y hy
      rcases hmap y hy with ⟨p, hp, rfl⟩
      have hp0 : 0 ≤ p - listMin prices := by
        have := listMin_le prices p hp
        linarith
      positivity
    have hub : ∀ y ∈ normalized prices, y ≤ 100 := by
      intro y hy
      rcases hmap y hy with ⟨p, hp, rfl⟩
      have hpM : p - listMin prices ≤ listMax prices - listMin prices := by
        have := le_listMax prices p hp
        linarith
      have hdiv : (p - listMin prices) / (listMax prices - listMin prices) ≤ 1 :=
        (div_le_one hpos).mpr hpM
      linarith
    have h0mem : (0 : ℚ) ∈ normalized prices := by
      refine List.mem_map.mpr ⟨listMin prices, listMin_mem prices hne, ?_⟩
      rw [if_pos hmm, sub_self, zero_div, zero_mul]
    have h100mem : (100 : ℚ) ∈ normalized prices := by
      refine List.mem_map.mpr ⟨listMax prices, listMax_mem prices hne, ?_⟩
      rw [if_pos hmm, div_self hpos.ne', one_mul]
    have hnne : normalized prices ≠ [] := by
      intro habs
      rw [habs] at h0mem
      cases h0mem
    constructor
    · exact le_antisymm (listMin_le (normalized prices) 0 h0mem)
        (hnn (listMin (normalized prices)) (listMin_mem (normalized prices) hnne))
    · exact le_antisymm
        (hub (listMax (normalized prices)) (listMax_mem (normalized prices) hnne))
        (le_listMax (normalized prices) 100 h100mem)
  · intro hmm y hy
    rcases List.mem_map.mp hy with ⟨p, _, hfy⟩
    rw [if_neg (by simpa using hmm)] at hfy
    exact hfy.symm

/-- C5 witness: the non-constant list [3, 1, 2] and the constant list
handled through the same theorem at [4, 4]. -/
theorem normalized_range_witness :
    (listMin (normalized [3, 1, 2]) = 0 ∧ listMax (normalized [3, 1, 2]) = 100)
    ∧ ∀ y ∈ normalized [4, 4], y = 50 :=
  ⟨(normalized_range [3, 1, 2] (by decide)).1 (by norm_num [listMax, listMin]),
   (normalized_range [4, 4] (by decide)).2 (by norm_num [listMax, listMin])⟩

/-- C7: for every symbol in the configured asset table, a fetch failure
(exception or absent result) for that symbol leaves the data store with
no entry for that symbol instead of propagating, and the entry stored
for a symbol depends only on that symbol's own fetch outcome, so a
failure for one symbol cannot affect any other symbol. -/
theorem fetch_failure_isolated {D : Type}
    (fetch : String → Except String (Option D)) (s : String)
    (hs : s ∈ ASSETS_keys) :
    load_data_store fetch ASSETS_keys s = fetch_result (fetch s)
    ∧ ∀ g : String → Except String (Option D), g s = fetch s →
        load_data_store g ASSETS_keys s = load_data_store fetch ASSETS_keys s := by
  have key : ∀ f : String → Except String (Option D),
      load_data_store f ASSETS_keys s = fetch_result (f s) := by
    intro f
    unfold load_data_store
    rw [load_store_lookup]
    by_cases hsome : (fetch_result (f s)).isSome
    · rw [if_pos ⟨hs, hsome⟩]
    · rw [if_neg (fun hc => hsome hc.2)]
      cases hres : fetch_result (f s) with
      | none => rfl
      | some d => rw [hres] at hsome; simp at hsome
  refine ⟨key fetch, fun g hg => ?_⟩
  rw [key g, key fetch, hg]

/-- C7 witness: with a fetch oracle that raises for GC=F and succeeds
elsewhere, SI=F still obtains its own fetch result, and replacing the
oracle by one that differs only away from SI=F leaves the SI=F entry
unchanged. -/
theorem fetch_failure_isolated_witness :
    load_data_store fetch_fail_gold ASSETS_keys "SI=F" =
      fetch_result (fetch_fail_gold "SI=F")
    ∧ load_data_store fetch_all_ok ASSETS_keys "SI=F" =
      load_data_store fetch_fail_gold ASSETS_keys "SI=F" :=
  ⟨(fetch_failure_isolated fetch_fail_gold "SI=F" (by decide)).1,
   (fetch_failure_isolated fetch_fail_gold "SI=F" (by decide)).2
     fetch_all_ok (by rfl)⟩

/-- C9: the classification is monotone in the angle under the label
ordering FORTE BAIXA < BAIXA MODERADA < LATERAL < ALTA MODERADA <
FORTE ALTA (that is, STRONG_DOWN < MODERATE_DOWN < SIDEWAYS <
MODERATE_UP < STRONG_UP), and the label determines the color: any two
angles given the same label are given the same color. -/
theorem trend_monotone_color {α : Type} [LinearOrderedField α] (a b : α) :
    (a ≤ b → labelRank (get_trend_info a).1 ≤ labelRank (get_trend_info b).1)
    ∧ ((get_trend_info a).1 = (get_trend_info b).1 →
        (get_trend_info a).2 = (get_trend_info b).2) := by
  constructor
  · intro hab
    rw [labelRank_trend, labelRank_trend]
    split_ifs <;> first | omega | (exfalso; linarith)
  · unfold get_trend_info
    split_ifs <;> simp

/-- C9 witness: two angles in the moderate-up band. -/
theorem trend_monotone_color_witness :
    labelRank (get_trend_info (6 : ℚ)).1 ≤ labelRank (get_trend_info (7 : ℚ)).1
    ∧ (get_trend_info (6 : ℚ)).2 = (get_trend_info (7 : ℚ)).2 :=
  ⟨(trend_monotone_color 6 7).1 (by norm_num),
   (trend_monotone_color 6 7).2 (by decide)⟩

/-- C10: a NaN angle fails every strict greater-than comparison, so
get_trend_info falls through to the final branch and returns FORTE BAIXA
(STRONG_DOWN) with the red color; NaN is not rejected and does not map
to the LATERAL (SIDEWAYS) band. -/
theorem trend_nan_strong_down :
    get_trend_info_float .nan = ("FORTE BAIXA", "#EF4444")
    ∧ (get_trend_info_float .nan).1 ≠ "LATERAL" := by
  exact ⟨rfl, by decide⟩

/-- C4: for every price list of length at least two, calculate_slope
returns the ordinary-least-squares slope of the line fitted over the
points (i, prices[i]) with equally spaced integer indices — the
computed (slope, intercept) pair minimizes the sum of squared vertical
residuals, strictly in the slope component — and the angle equals
arctan(slope) * 180 / pi. -/
theorem calculate_slope_is_ols (ps : List ℚ) (h : 2 ≤ ps.length) (a b : ℚ) :
    (calculate_slope ps).1 = polyfitSlope ps
    ∧ (calculate_slope ps).2 = Real.arctan (polyfitSlope ps) * (180 / Real.pi)
    ∧ SSR ps (polyfitSlope ps) (polyfitIntercept ps) ≤ SSR ps a b
    ∧ (a ≠ polyfitSlope ps →
        SSR ps (polyfitSlope ps) (polyfitIntercept ps) < SSR ps a b) := by
  have hnot : ¬ ps.length < 2 := not_lt.mpr h
  refine ⟨?_, ?_, ?_, ?_⟩
  · unfold calculate_slope
    rw [if_neg hnot]
  · unfold calculate_slope
    rw [if_neg hnot]
  · rw [ssr_decomp ps h a b]
    exact le_add_of_nonneg_right (Finset.sum_nonneg fun i _ => sq_nonneg _)
  · intro hne
    rw [ssr_decomp ps h a b]
    apply lt_add_of_pos_right
    have hnn : ∀ i ∈ Finset.range ps.length,
        0 ≤ ((polyfitSlope ps - a) * (i : ℚ) + (polyfitIntercept ps - b)) ^ 2 :=
      fun i _ => sq_nonneg _
    rcases (Finset.sum_nonneg hnn).lt_or_eq with hlt | heq
    · exact hlt
    · exfalso
      have hall := (Finset.sum_eq_zero_iff_of_nonneg hnn).mp heq.symm
      have h0 := hall 0 (Finset.mem_range.mpr (by omega))
      have h1 := hall 1 (Finset.mem_range.mpr (by omega))
      have hb : polyfitIntercept ps - b = 0 := by simpa using h0
      have hsab : polyfitSlope ps - a + (polyfitIntercept ps - b) = 0 := by
        simpa using h1
      exact hne (by linarith)

/-- C4 witness: the list [0, 1], whose fitted line y = x has zero
residual, compared against the line y = 0. -/
theorem calculate_slope_is_ols_witness :
    (calculate_slope [0, 1]).1 = polyfitSlope [0, 1]
    ∧ (calculate_slope [0, 1]).2
        = Real.arctan (polyfitSlope [0, 1]) * (180 / Real.pi)
    ∧ SSR [0, 1] (polyfitSlope [0, 1]) (polyfitIntercept [0, 1]) ≤ SSR [0, 1] 0 0
    ∧ SSR [0, 1] (polyfitSlope [0, 1]) (polyfitIntercept [0, 1]) < SSR [0, 1] 0 0 :=
  ⟨(calculate_slope_is_ols [0, 1] (by norm_num) 0 0).1,
   (calculate_slope_is_ols [0, 1] (by norm_num) 0 0).2.1,
   (calculate_slope_is_ols [0, 1] (by norm_num) 0 0).2.2.1,
   (calculate_slope_is_ols [0, 1] (by norm_num) 0 0).2.2.2
     (by norm_num [polyfitSlope, sumX, sumXX, sumY, sumXY, slopeDen,
       Finset.sum_range_succ])⟩

/-- C6: the trend estimation is a total function — for lists of length
at least two the least-squares denominator is strictly positive, so the
division in the fit is well defined and no exception can arise — and
every constant price list yields slope exactly 0, angle exactly 0 and
the LATERAL (SIDEWAYS) label. -/
theorem calculate_slope_total (ps : List ℚ) :
    (2 ≤ ps.length → 0 < slopeDen ps.length)
    ∧ ∀ cst : ℚ, (∀ x ∈ ps, x = cst) →
        (calculate_slope ps).1 = 0 ∧ (calculate_slope ps).2 = 0
        ∧ get_trend_info (calculate_slope ps).2 = ("LATERAL", "#FBBF24") := by
  constructor
  · exact fun h => slopeDen_pos h
  · intro cst hcst
    by_cases hlen : ps.length < 2
    · have hcs : calculate_slope ps = (0, 0) := by
        unfold calculate_slope
        rw [if_pos hlen]
      rw [hcs]
      refine ⟨rfl, rfl, ?_⟩
      norm_num [get_trend_info]
    · have hs0 : polyfitSlope ps = 0 := by
        have hy : ∀ i ∈ Finset.range ps.length, ps.getD i 0 = cst := by
          intro i hi
          rw [List.getD_eq_getElem ps 0 (Finset.mem_range.mp hi)]
          exact hcst _ (List.getElem_mem (Finset.mem_range.mp hi))
        have hY : sumY ps = (ps.length : ℚ) * cst := by
          rw [sumY, Finset.sum_congr rfl hy, Finset.sum_const,
            Finset.card_range, nsmul_eq_mul]
        have hXY : sumXY ps = cst * sumX ps.length := by
          rw [sumXY, sumX, Finset.mul_sum]
          refine Finset.sum_congr rfl ?_
          intro i hi
          rw [hy i hi]
          ring
        unfold polyfitSlope
        rw [hY, hXY]
        rw [show (ps.length : ℚ) * (cst * sumX ps.length)
            - sumX ps.length * ((ps.length : ℚ) * cst) = 0 by ring]
        exact zero_div _
      have hcs : calculate_slope ps = (0, 0) := by
        unfold calculate_slope
        rw [if_neg hlen, hs0]
        norm_num
      rw [hcs]
      refine ⟨rfl, rfl, ?_⟩
      norm_num [get_trend_info]

/-- C6 witness: the constant list [100, 100, 100, 100] from the spec's
test table. -/
theorem calculate_slope_total_witness :
    0 < slopeDen ([100, 100, 100, 100] : List ℚ).length
    ∧ (calculate_slope [100, 100, 100, 100]).1 = 0
    ∧ (calculate_slope [100, 100, 100, 100]).2 = 0
    ∧ get_trend_info (calculate_slope [100, 100, 100, 100]).2
        = ("LATERAL", "#FBBF24") :=
  ⟨(calculate_slope_total [100, 100, 100, 100]).1 (by norm_num),
   ((calculate_slope_total [100, 100, 100, 100]).2 100 (by decide)).1,
   ((calculate_slope_total [100, 100, 100, 100]).2 100 (by decide)).2.1,
   ((calculate_slope_total [100, 100, 100, 100]).2 100 (by decide)).2.2⟩

/-- C8: on the price list [1900, 1905, 1910, 1920] the fit returns the
positive slope 13/2, a positive angle, and an "up" label (in fact
FORTE ALTA, i.e. STRONG_UP); the snapshot yields change = 20 and
change_pct = 20/19, which is within 0.01 of 1.05. -/
theorem end_to_end_scenario :
    (calculate_slope [1900, 1905, 1910, 1920]).1 = 13 / 2
    ∧ 0 < (calculate_slope [1900, 1905, 1910, 1920]).1
    ∧ 0 < (calculate_slope [1900, 1905, 1910, 1920]).2
    ∧ ((get_trend_info (calculate_slope [1900, 1905, 1910, 1920]).2).1
          = "FORTE ALTA"
        ∨ (get_trend_info (calculate_slope [1900, 1905, 1910, 1920]).2).1
          = "ALTA MODERADA")
    ∧ change [1900, 1905, 1910, 1920] = 20
    ∧ change_pct [1900, 1905, 1910, 1920] = 20 / 19
    ∧ |change_pct [1900, 1905, 1910, 1920] - 1.05| < 1 / 100 := by
  have hlen : ¬ ([1900, 1905, 1910, 1920] : List ℚ).length < 2 := by norm_num
  have hs : polyfitSlope [1900, 1905, 1910, 1920] = 13 / 2 := by
    norm_num [polyfitSlope, sumX, sumXX, sumY, sumXY, slopeDen,
      Finset.sum_range_succ]
  have hcs1 : (calculate_slope [1900, 1905, 1910, 1920]).1 = 13 / 2 := by
    unfold calculate_slope
    rw [if_neg hlen]
    exact hs
  have hcs2 : (calculate_slope [1900, 1905, 1910, 1920]).2
      = Real.arctan ((13 : ℝ) / 2) * (180 / Real.pi) := by
    unfold calculate_slope
    rw [if_neg hlen]
    show Real.arctan _ * _ = _
    rw [hs]
    norm_num
  have harctan1 : Real.pi / 4 < Real.arctan ((13 : ℝ) / 2) := by
    rw [← Real.arctan_one]
    exact Real.arctan_strictMono (by norm_num)
  have hpi := Real.pi_pos
  have hfactor : (0 : ℝ) < 180 / Real.pi := by positivity
  have h45 : Real.pi / 4 * (180 / Real.pi) = 45 := by
    field_simp
    ring
  have hangle15 : (15 : ℝ) < (calculate_slope [1900, 1905, 1910, 1920]).2 := by
    rw [hcs2]
    have hmul : Real.pi / 4 * (180 / Real.pi)
        < Real.arctan ((13 : ℝ) / 2) * (180 / Real.pi) :=
      mul_lt_mul_of_pos_right harctan1 hfactor
    rw [h45] at hmul
    linarith
  have htrend : get_trend_info (calculate_slope [1900, 1905, 1910, 1920]).2
      = ("FORTE ALTA", "#10B981") := by
    unfold get_trend_info
    rw [if_pos hangle15]
  have hch : change [1900, 1905, 1910, 1920] = 20 := by
    norm_num [change, current_price, previous_price, List.getLastD]
  have hprev : previous_price [1900, 1905, 1910, 1920] = 1900 := by
    norm_num [previous_price]
  have hpct : change_pct [1900, 1905, 1910, 1920] = 20 / 19 := by
    rw [change_pct, if_pos (by rw [hprev]; norm_num), hch, hprev]
    norm_num
  refine ⟨hcs1, by rw [hcs1]; norm_num, ?_, Or.inl (by rw [htrend]), hch, hpct, ?_⟩
  · have harcpos : (0 : ℝ) < Real.arctan ((13 : ℝ) / 2) := by
      rw [← Real.arctan_zero]
      exact Real.arctan_strictMono (by norm_num)
    rw [hcs2]
    positivity
  · rw [hpct]
    rw [show (20 : ℚ) / 19 - 1.05 = 1 / 380 by norm_num]
    rw [abs_of_pos (by norm_num : (0 : ℚ) < 1 / 380)]
    norm_num

end EvolMerc
